import Mathlib

/-!
Verification of the availability-and-scheduling core of the hangout-scheduler
repository, shallowly embedded from `src/app/dashboard/page.tsx` and
`supabase-schema.sql`.

Modelling conventions:
* Times are stored in the source as zero-padded strings `"HH:00:00"` and are
  compared lexicographically; for the whole-hour values the program produces
  (two-digit hours) that order coincides with numeric order, so `start_time`
  and `end_time` are embedded as the `Nat` hour value.
* Database row ids are UUIDs, always distinct from existing rows; the model
  generates them from a `nextId` counter carried in the state.
* The React state variable `availability` is updated in lock-step with every
  successful database mutation, so a single list of rows models both.
* Within one invocation of `handleToggleAvailability` every call to
  `isCellAvailable` reads the closure's `availability` binding, i.e. the
  pre-toggle snapshot; the loop therefore receives the snapshot separately
  from the evolving row state.
-/

namespace HangoutScheduler

/-- A calendar grid cell as selected by the drag UI: the cells carry
`data-dow`, `data-hour` and `data-col` attributes in the grid. -/
structure Cell where
  dow : Nat
  hour : Nat
  colIdx : Nat
deriving DecidableEq

/-- One row of the `availability` table (`id, day_of_week, start_time,
end_time`), times as hour values (see module conventions). -/
structure Avail where
  id : Nat
  day_of_week : Nat
  start_time : Nat
  end_time : Nat
deriving DecidableEq

/-- The predicate from `isCellAvailable`: row `a` covers hour `hour` on day
`day` when `a.day_of_week === day && a.start_time <= hourStr &&
a.end_time >= nextHourStr`. -/
def availPred (day hour : Nat) (a : Avail) : Bool :=
  decide (a.day_of_week = day ∧ a.start_time ≤ hour ∧ hour + 1 ≤ a.end_time)

/-- `isCellAvailable(day, hour)` from the dashboard: `availability.find(...)`,
returning the first covering row or none. -/
def isCellAvailable (availability : List Avail) (day hour : Nat) : Option Avail :=
  availability.find? (availPred day hour)

/-- `buildRange(start, end)` from the dashboard: on a column mismatch return
just the start cell, otherwise all cells from the smaller to the larger hour,
carrying the start cell's `dow` and `colIdx`. -/
def buildRange (s e : Cell) : List Cell :=
  if s.colIdx ≠ e.colIdx then [s]
  else
    (List.range' (Nat.min s.hour e.hour)
        (Nat.max s.hour e.hour + 1 - Nat.min s.hour e.hour)).map
      fun h => Cell.mk s.dow h s.colIdx

/-- Mutable store state during a toggle: the availability rows plus the
fresh-id counter standing in for database id generation. -/
structure AvailState where
  rows : List Avail
  nextId : Nat
deriving DecidableEq

/-- The remove branch of `handleToggleAvailability` for one cell, after a
successful delete of the covering row `m`: the local state drops the row by
id (`prev.filter(a => a.id !== matchingAvail.id)`) and appends the remainder
rows `[s, hour)` (when `start_time < hourStr`) and `[hour+1, e)` (when
`end_time > nextHourStr`), in that order. -/
def removeCellRows (m : Avail) (c : Cell) (rows : List Avail) (nid : Nat) :
    List Avail × Nat :=
  let kept := rows.filter fun a => decide (a.id ≠ m.id)
  let left : List Avail × Nat :=
    if m.start_time < c.hour then
      ([Avail.mk nid c.dow m.start_time c.hour], nid + 1)
    else ([], nid)
  let both : List Avail × Nat :=
    if c.hour + 1 < m.end_time then
      (left.1 ++ [Avail.mk left.2 c.dow (c.hour + 1) m.end_time], left.2 + 1)
    else left
  (kept ++ both.1, both.2)

/-- The `for (const cell of selectedCells)` loop of
`handleToggleAvailability`.  `snapshot` is the pre-toggle `availability`
binding every `isCellAvailable` call reads; `allAvailable` was computed once
before the loop; `delOk` tells whether the database delete issued for the
i-th remaining cell succeeds (`if (error) continue;` skips the remainder
inserts of a failed delete and moves on). Cells in the remove branch whose
delete fails, and cells matching neither branch, leave the state unchanged. -/
def toggleGo (snapshot : List Avail) (allAvailable : Bool) :
    (Nat → Bool) → List Cell → AvailState → AvailState
  | _, [], st => st
  | delOk, c :: rest, st =>
    let st' : AvailState :=
      match isCellAvailable snapshot c.dow c.hour with
      | some m =>
        if allAvailable then
          if delOk 0 then
            let rn := removeCellRows m c st.rows st.nextId
            AvailState.mk rn.1 rn.2
          else st
        else st
      | none =>
        if allAvailable then st
        else
          AvailState.mk (st.rows ++ [Avail.mk st.nextId c.dow c.hour (c.hour + 1)])
            (st.nextId + 1)
    toggleGo snapshot allAvailable (fun i => delOk (i + 1)) rest st'

/-- `handleToggleAvailability` from the dashboard: bails out when no profile
is loaded or no cell is selected, computes
`allAvailable = selectedCells.every(c => isCellAvailable(c.dow, c.hour))`
against the pre-toggle state, then runs the per-cell loop. -/
def handleToggleAvailability (hasProfile : Bool) (selectedCells : List Cell)
    (delOk : Nat → Bool) (st : AvailState) : AvailState :=
  if !hasProfile || selectedCells.isEmpty then st
  else
    let allAvailable :=
      selectedCells.all fun c => (isCellAvailable st.rows c.dow c.hour).isSome
    toggleGo st.rows allAvailable delOk selectedCells st

/-- The toggle in the normal situation: profile loaded, every database call
succeeds. -/
def toggleAvail (sel : List Cell) (st : AvailState) : AvailState :=
  handleToggleAvailability true sel (fun _ => true) st

/-- The rows the add path of one toggle appends: one fresh `[hour, hour+1)`
row per selected cell not covered in the pre-toggle snapshot, in selection
order, with sequentially generated ids. -/
def addRows (snapshot : List Avail) : List Cell → Nat → List Avail
  | [], _ => []
  | c :: cs, nid =>
    match isCellAvailable snapshot c.dow c.hour with
    | some _ => addRows snapshot cs nid
    | none => Avail.mk nid c.dow c.hour (c.hour + 1) :: addRows snapshot cs (nid + 1)

/-- The block of one-hour rows `[lo,lo+1), [lo+1,lo+2), …` (`n` of them) on
one day with sequential ids starting at `nid`. -/
def oneHourRows (day : Nat) : Nat → Nat → Nat → List Avail
  | _, 0, _ => []
  | lo, Nat.succ k, nid =>
    Avail.mk nid day lo (lo + 1) :: oneHourRows day (lo + 1) k (nid + 1)

/-- Status column of the `friends` table:
`check (status in ('pending', 'accepted'))`. -/
inductive FStatus where
  | pending
  | accepted
deriving DecidableEq

/-- One row of the `friends` table: `id, user_id (requester),
friend_user_id (recipient), status`, with the constraint
`unique(user_id, friend_user_id)` on the ordered pair. -/
structure FriendLink where
  id : Nat
  user_id : Nat
  friend_user_id : Nat
  status : FStatus
deriving DecidableEq

/-- The only failure `handleAddFriend`'s insert can hit in the model: the
`unique(user_id, friend_user_id)` constraint rejecting a duplicate ordered
pair (surfaced to the UI as the per-user error message). -/
inductive FriendError where
  | conflict
deriving DecidableEq

/-- `handleAddFriend(friendId)` from the dashboard: inserts
`{user_id: me, friend_user_id: friendId, status: "pending"}`; the database
errors exactly when a row with the same ordered `(user_id, friend_user_id)`
pair already exists, whatever its status. No reverse-direction check is
performed anywhere. -/
def handleAddFriend (db : List FriendLink) (nid requester recipient : Nat) :
    Except FriendError (List FriendLink) :=
  if db.any fun l => decide (l.user_id = requester ∧ l.friend_user_id = recipient) then
    Except.error FriendError.conflict
  else
    Except.ok (db ++ [FriendLink.mk nid requester recipient FStatus.pending])

/-- The accepted-friends query from `fetchData`: rows where the user appears
on either side with status accepted, resolved to the other party
(`r.user_id === user.id ? r.friend_user_id : r.user_id`). -/
def acceptedFriendIds (db : List FriendLink) (me : Nat) : List Nat :=
  (db.filter fun l =>
      decide ((l.user_id = me ∨ l.friend_user_id = me) ∧ l.status = FStatus.accepted)).map
    fun l => if l.user_id = me then l.friend_user_id else l.user_id

/-- Status column of the `hangout_suggestions` table:
`check (status in ('pending', 'accepted', 'declined'))`. -/
inductive HStatus where
  | pending
  | accepted
  | declined
deriving DecidableEq

/-- One row of the `hangout_suggestions` table. The free-text pass-through
columns (`message`, `location`, `description`) play no role in any claim and
are omitted. -/
structure Proposal where
  id : Nat
  sender_user_id : Nat
  recipient_user_id : Nat
  interest_id : Option Nat
  proposed_datetime : Nat
  status : HStatus
deriving DecidableEq

/-- One row of the `interests` table (`id, user_id`); the free-text `title`
column plays no role in any claim and is omitted. -/
structure Interest where
  id : Nat
  user_id : Nat
deriving DecidableEq

/-- Failures of `handleScheduleHangout`: `missingField` is the client-side
"Please select a friend and date/time."; `insertRejected` is a database
rejection of the insert surfaced via `error.message` — the schema declares
`interest_id uuid not null references public.interests(id)`, so inserting
`interest_id: null` hits the not-null constraint and a dangling interest id
hits the foreign key. -/
inductive ScheduleError where
  | missingField
  | insertRejected
deriving DecidableEq

/-- `handleScheduleHangout` from the dashboard: rejects a missing friend id
or datetime client-side, then inserts the pending proposal with
`interest_id: hangoutForm.interestId || null`.  The database enforces the
schema's `interest_id not null` and its foreign key into `interests`, so the
insert only succeeds when an existing interest id is supplied.  The friends
list is never consulted by the handler (only the UI dropdown is populated
from it), so no friendship check guards the insert. -/
def handleScheduleHangout (interests : List Interest) (db : List Proposal)
    (nid sender : Nat) (friendId datetime : Option Nat) (interestId : Option Nat) :
    Except ScheduleError (List Proposal) :=
  match friendId, datetime with
  | some f, some d =>
    match interestId with
    | none => Except.error ScheduleError.insertRejected
    | some i =>
      if interests.any fun t => decide (t.id = i) then
        Except.ok (db ++ [Proposal.mk nid sender f (some i) d HStatus.pending])
      else Except.error ScheduleError.insertRejected
  | _, _ => Except.error ScheduleError.missingField

/-- The status update issued by `handleAcceptHangout` / `handleDeclineHangout`
(`update({status}).eq("id", requestId)`) combined with the row-level policy
`"Recipients can update suggestions" … using (recipient_user_id = auth.uid())`:
rows not owned by the responder as recipient are silently filtered out of the
update; no error is raised for them and the current status is never
inspected. -/
def updateSuggestionStatus (db : List Proposal) (byUser requestId : Nat)
    (s : HStatus) : List Proposal :=
  db.map fun p =>
    if p.id = requestId ∧ p.recipient_user_id = byUser then
      { p with status := s }
    else p

/-- `handleAcceptHangout(requestId)` as performed by user `byUser`. -/
def handleAcceptHangout (db : List Proposal) (byUser requestId : Nat) :
    List Proposal :=
  updateSuggestionStatus db byUser requestId HStatus.accepted

/-- `handleDeclineHangout(requestId)` as performed by user `byUser`. -/
def handleDeclineHangout (db : List Proposal) (byUser requestId : Nat) :
    List Proposal :=
  updateSuggestionStatus db byUser requestId HStatus.declined

/-- Comparison used by the final `hangList.sort((a, b) => …)`: ascending
`proposed_datetime`. -/
def hangLe (a b : Proposal) : Prop :=
  a.proposed_datetime ≤ b.proposed_datetime

instance : DecidableRel hangLe := fun a b => Nat.decLe a.proposed_datetime b.proposed_datetime

instance : IsTotal Proposal hangLe :=
  ⟨fun a b => Nat.le_total a.proposed_datetime b.proposed_datetime⟩

instance : IsTrans Proposal hangLe :=
  ⟨fun _ _ _ h1 h2 => Nat.le_trans h1 h2⟩

/-- The upcoming-accepted-hangs fetch from `fetchData`: one query for rows
where the user is the sender (status accepted, `proposed_datetime >= now`),
one for rows where the user is the recipient, concatenated and then sorted
ascending by `proposed_datetime`. The per-query `order(...)` clauses are
subsumed by the final sort; an insertion sort stands in for the engine's
comparison sort. -/
def fetchUpcomingAccepted (db : List Proposal) (user now : Nat) : List Proposal :=
  let sent := db.filter fun p =>
    decide (p.sender_user_id = user ∧ p.status = HStatus.accepted ∧
      now ≤ p.proposed_datetime)
  let received := db.filter fun p =>
    decide (p.recipient_user_id = user ∧ p.status = HStatus.accepted ∧
      now ≤ p.proposed_datetime)
  List.insertionSort hangLe (sent ++ received)

/-! ### Helper lemmas -/

theorem toggleGo_add (snapshot : List Avail) :
    ∀ (cells : List Cell) (delOk : Nat → Bool) (st : AvailState),
      toggleGo snapshot false delOk cells st =
        AvailState.mk (st.rows ++ addRows snapshot cells st.nextId)
          (st.nextId + (addRows snapshot cells st.nextId).length) := by
  intro cells
  induction cells with
  | nil => intro delOk st; simp [toggleGo, addRows]
  | cons c cs ih =>
    intro delOk st
    cases hm : isCellAvailable snapshot c.dow c.hour with
    | some m =>
      simp only [toggleGo, hm, Bool.false_eq_true, if_false, addRows]
      exact ih _ st
    | none =>
      simp only [toggleGo, hm, Bool.false_eq_true, if_false, addRows]
      rw [ih]
      simp [List.append_assoc, List.length_cons]
      omega

theorem oneHourRows_length (day : Nat) :
    ∀ (n lo nid : Nat), (oneHourRows day lo n nid).length = n := by
  intro n
  induction n with
  | zero => intro lo nid; rfl
  | succ k ih => intro lo nid; simp [oneHourRows, ih]

theorem mem_oneHourRows_ge (day : Nat) :
    ∀ (n lo nid : Nat) (a : Avail), a ∈ oneHourRows day lo n nid → nid ≤ a.id := by
  intro n
  induction n with
  | zero => intro lo nid a ha; simp [oneHourRows] at ha
  | succ k ih =>
    intro lo nid a ha
    simp only [oneHourRows, List.mem_cons] at ha
    rcases ha with rfl | ha
    · exact Nat.le_refl _
    · exact Nat.le_trans (Nat.le_succ nid) (ih (lo + 1) (nid + 1) a ha)

theorem mem_addRows (snapshot : List Avail) :
    ∀ (cells : List Cell) (nid : Nat) (r : Avail), r ∈ addRows snapshot cells nid →
      ∃ c ∈ cells, isCellAvailable snapshot c.dow c.hour = none ∧
        r.day_of_week = c.dow ∧ r.start_time = c.hour ∧ r.end_time = c.hour + 1 := by
  intro cells
  induction cells with
  | nil => intro nid r hr; simp [addRows] at hr
  | cons c cs ih =>
    intro nid r hr
    cases hm : isCellAvailable snapshot c.dow c.hour with
    | some m =>
      simp only [addRows, hm] at hr
      obtain ⟨c', hc', h⟩ := ih nid r hr
      exact ⟨c', List.mem_cons_of_mem _ hc', h⟩
    | none =>
      simp only [addRows, hm, List.mem_cons] at hr
      rcases hr with rfl | hr
      · exact ⟨c, List.mem_cons_self _ _, hm, rfl, rfl, rfl⟩
      · obtain ⟨c', hc', h⟩ := ih (nid + 1) r hr
        exact ⟨c', List.mem_cons_of_mem _ hc', h⟩

theorem find?_oneHourRows (day h : Nat) :
    ∀ (n lo nid : Nat), lo ≤ h → h < lo + n →
      (oneHourRows day lo n nid).find? (availPred day h) =
        some (Avail.mk (nid + (h - lo)) day h (h + 1)) := by
  intro n
  induction n with
  | zero => intro lo nid h1 h2; omega
  | succ k ih =>
    intro lo nid h1 h2
    rcases Nat.lt_or_ge lo h with hlt | hge
    · have hneg : ¬ availPred day h (Avail.mk nid day lo (lo + 1)) = true := by
        simp [availPred]; omega
      simp only [oneHourRows]
      rw [List.find?_cons_of_neg _ hneg, ih (lo + 1) (nid + 1) (by omega) (by omega)]
      have e : nid + 1 + (h - (lo + 1)) = nid + (h - lo) := by omega
      rw [e]
    · have he : h = lo := by omega
      subst he
      simp only [oneHourRows]
      rw [List.find?_cons_of_pos _ (by simp [availPred])]
      simp

theorem isCellAvailable_append_block (rows0 : List Avail) (day lo n id0 h : Nat)
    (H : isCellAvailable rows0 day h = none) (h1 : lo ≤ h) (h2 : h < lo + n) :
    isCellAvailable (rows0 ++ oneHourRows day lo n id0) day h =
      some (Avail.mk (id0 + (h - lo)) day h (h + 1)) := by
  unfold isCellAvailable at H ⊢
  rw [List.find?_append, H, Option.none_or, find?_oneHourRows day h n lo id0 h1 h2]

theorem addRows_range_uncovered (snapshot : List Avail) (day col : Nat) :
    ∀ (n lo nid : Nat),
      (∀ h, lo ≤ h → h < lo + n → isCellAvailable snapshot day h = none) →
      addRows snapshot ((List.range' lo n).map fun h => Cell.mk day h col) nid =
        oneHourRows day lo n nid := by
  intro n
  induction n with
  | zero => intro lo nid H; simp [addRows, oneHourRows]
  | succ k ih =>
    intro lo nid H
    rw [List.range'_succ]
    simp only [List.map_cons, addRows]
    rw [H lo (Nat.le_refl lo) (by omega)]
    simp only [oneHourRows]
    rw [ih (lo + 1) (nid + 1) (fun h hh1 hh2 => H h (by omega) (by omega))]

theorem filter_block (rows0 : List Avail) (day id0 : Nat)
    (Hids : ∀ a ∈ rows0, a.id < id0) (lo' k nid : Nat) (hnid : id0 ≤ nid) :
    ((rows0 ++ Avail.mk nid day lo' (lo' + 1) :: oneHourRows day (lo' + 1) k (nid + 1)).filter
        fun a => decide (a.id ≠ nid)) =
      rows0 ++ oneHourRows day (lo' + 1) k (nid + 1) := by
  rw [List.filter_append, List.filter_cons]
  have h0 : rows0.filter (fun a => decide (a.id ≠ nid)) = rows0 :=
    List.filter_eq_self.mpr fun a ha => by
      have := Hids a ha
      simp
      omega
  have h1 : (decide (nid ≠ nid) : Bool) = false := by simp
  have h2 : (oneHourRows day (lo' + 1) k (nid + 1)).filter (fun a => decide (a.id ≠ nid)) =
      oneHourRows day (lo' + 1) k (nid + 1) :=
    List.filter_eq_self.mpr fun a ha => by
      have := mem_oneHourRows_ge day k (lo' + 1) (nid + 1) a ha
      simp
      omega
  rw [h0, h2]
  simp

theorem removeLoop (rows0 : List Avail) (day col lo n id0 : Nat)
    (Hids : ∀ a ∈ rows0, a.id < id0)
    (H : ∀ h, lo ≤ h → h < lo + n → isCellAvailable rows0 day h = none) :
    ∀ (k j nidc : Nat), j + k = n →
      toggleGo (rows0 ++ oneHourRows day lo n id0) true (fun _ => true)
        ((List.range' (lo + j) k).map fun h => Cell.mk day h col)
        (AvailState.mk (rows0 ++ oneHourRows day (lo + j) k (id0 + j)) nidc) =
      AvailState.mk rows0 nidc := by
  intro k
  induction k with
  | zero =>
    intro j nidc hjk
    simp [toggleGo, oneHourRows]
  | succ k' ih =>
    intro j nidc hjk
    rw [List.range'_succ]
    simp only [List.map_cons, toggleGo]
    have hfind := isCellAvailable_append_block rows0 day lo n id0 (lo + j)
      (H (lo + j) (by omega) (by omega)) (by omega) (by omega)
    have e : id0 + (lo + j - lo) = id0 + j := by omega
    rw [e] at hfind
    rw [hfind]
    simp only [if_true]
    have hrem : removeCellRows (Avail.mk (id0 + j) day (lo + j) (lo + j + 1))
        (Cell.mk day (lo + j) col)
        (rows0 ++ oneHourRows day (lo + j) (k' + 1) (id0 + j)) nidc =
        (rows0 ++ oneHourRows day (lo + j + 1) k' (id0 + j + 1), nidc) := by
      unfold removeCellRows
      simp only [Nat.lt_irrefl, if_false]
      rw [show oneHourRows day (lo + j) (k' + 1) (id0 + j) =
          Avail.mk (id0 + j) day (lo + j) (lo + j + 1) ::
            oneHourRows day (lo + j + 1) k' (id0 + j + 1) from rfl]
      rw [filter_block rows0 day id0 Hids (lo + j) k' (id0 + j) (by omega)]
      simp
    rw [hrem]
    have := ih (j + 1) nidc (by omega)
    simpa [Nat.add_assoc] using this

theorem filter_append_perm_or {α : Type} (p q : α → Bool) :
    ∀ (l : List α), (∀ a ∈ l, ¬(p a = true ∧ q a = true)) →
      (l.filter p ++ l.filter q).Perm (l.filter fun a => p a || q a) := by
  intro l
  induction l with
  | nil => intro _; simp
  | cons a t ih =>
    intro h
    have ht : ∀ x ∈ t, ¬(p x = true ∧ q x = true) :=
      fun x hx => h x (List.mem_cons_of_mem _ hx)
    have ha := h a (List.mem_cons_self _ _)
    by_cases hp : p a = true
    · have hq : q a = false := by
        cases hqb : q a with
        | false => rfl
        | true => exact absurd ⟨hp, hqb⟩ ha
      simp only [List.filter_cons, hp, hq, if_true, Bool.false_eq_true, if_false,
        Bool.true_or, List.cons_append]
      exact (ih ht).cons a
    · have hp' : p a = false := by
        cases hpb : p a with
        | false => rfl
        | true => exact absurd hpb hp
      by_cases hq : q a = true
      · simp only [List.filter_cons, hp', hq, if_true, Bool.false_eq_true, if_false,
          Bool.false_or]
        exact List.perm_middle.trans ((ih ht).cons a)
      · have hq' : q a = false := by
          cases hqb : q a with
          | false => rfl
          | true => exact absurd hqb hq
        simp only [List.filter_cons, hp', hq', Bool.false_eq_true, if_false, Bool.false_or]
        exact ih ht

/-- Boolean form of distributing a shared conjunct over a disjunction, used
to merge the two hangout queries into one filter. -/
theorem decide_or_and (A B C : Prop) [Decidable A] [Decidable B] [Decidable C] :
    (decide (A ∧ C) || decide (B ∧ C)) = decide ((A ∨ B) ∧ C) := by
  by_cases hA : A <;> by_cases hB : B <;> by_cases hC : C <;> simp [hA, hB, hC]

/-! ### Claim theorems -/

/-- Claim C1 (amended): for every availability state in which no stored
interval covers any hour of a contiguous hour range on one day, performing
an add-toggle of that range followed by a remove-toggle of the same range
restores the stored rows exactly (no interval covers any hour of the range,
net zero intervals): the add creates one one-hour row per hour of the range
and the remove deletes exactly those rows.  The claim's further case of a
prior multi-hour interval over the range is refuted by the counterexample:
there the remove re-inserts stale remainders computed from the pre-toggle
snapshot and hours of the range stay covered. -/
theorem C1_roundtrip_amended (day col lo n : Nat) (st : AvailState)
    (Hids : ∀ a ∈ st.rows, a.id < st.nextId)
    (H : ∀ h, lo ≤ h → h < lo + n → isCellAvailable st.rows day h = none) :
    (toggleAvail ((List.range' lo n).map fun h => Cell.mk day h col)
        (toggleAvail ((List.range' lo n).map fun h => Cell.mk day h col) st)).rows =
      st.rows
    ∧ ∀ h, lo ≤ h → h < lo + n →
        isCellAvailable
          (toggleAvail ((List.range' lo n).map fun h => Cell.mk day h col)
            (toggleAvail ((List.range' lo n).map fun h => Cell.mk day h col) st)).rows
          day h = none := by
  obtain ⟨rows0, id0⟩ := st
  simp only at Hids H
  cases n with
  | zero =>
    constructor
    · rfl
    · intro h h1 h2
      exact H h h1 h2
  | succ k =>
    have hne : (((List.range' lo (k + 1)).map fun h => Cell.mk day h col).isEmpty) = false := by
      rw [List.range'_succ]
      rfl
    have hmem0 : Cell.mk day lo col ∈ (List.range' lo (k + 1)).map fun h => Cell.mk day h col :=
      List.mem_map_of_mem _ (List.mem_range'_1.mpr ⟨Nat.le_refl lo, by omega⟩)
    have hall1 : (((List.range' lo (k + 1)).map fun h => Cell.mk day h col).all
        fun c => (isCellAvailable rows0 c.dow c.hour).isSome) = false := by
      apply List.all_eq_false.mpr
      refine ⟨Cell.mk day lo col, hmem0, ?_⟩
      rw [show (Cell.mk day lo col).dow = day from rfl, show (Cell.mk day lo col).hour = lo from rfl]
      rw [H lo (Nat.le_refl lo) (by omega)]
      simp
    have ht1 : toggleAvail ((List.range' lo (k + 1)).map fun h => Cell.mk day h col)
        (AvailState.mk rows0 id0) =
        AvailState.mk (rows0 ++ oneHourRows day lo (k + 1) id0) (id0 + (k + 1)) := by
      unfold toggleAvail handleToggleAvailability
      simp only [Bool.not_true, Bool.false_or, hne, Bool.false_eq_true, if_false, hall1]
      rw [toggleGo_add, addRows_range_uncovered rows0 day col (k + 1) lo id0 H,
        oneHourRows_length]
    have hall2 : (((List.range' lo (k + 1)).map fun h => Cell.mk day h col).all
        fun c => (isCellAvailable (rows0 ++ oneHourRows day lo (k + 1) id0) c.dow c.hour).isSome) = true := by
      apply List.all_eq_true.mpr
      intro c hc
      obtain ⟨h, hh, rfl⟩ := List.mem_map.mp hc
      rw [List.mem_range'_1] at hh
      rw [show (Cell.mk day h col).dow = day from rfl, show (Cell.mk day h col).hour = h from rfl]
      rw [isCellAvailable_append_block rows0 day lo (k + 1) id0 h (H h hh.1 hh.2) hh.1 hh.2]
      rfl
    have ht2 : toggleAvail ((List.range' lo (k + 1)).map fun h => Cell.mk day h col)
        (AvailState.mk (rows0 ++ oneHourRows day lo (k + 1) id0) (id0 + (k + 1))) =
        AvailState.mk rows0 (id0 + (k + 1)) := by
      unfold toggleAvail handleToggleAvailability
      simp only [Bool.not_true, Bool.false_or, hne, Bool.false_eq_true, if_false, hall2]
      have := removeLoop rows0 day col lo (k + 1) id0 Hids H (k + 1) 0 (id0 + (k + 1)) (by omega)
      simpa using this
    rw [ht1, ht2]
    exact ⟨rfl, fun h h1 h2 => H h h1 h2⟩

/-- Claim C1 (counterexample): with prior coverage by the single multi-hour
interval `[17,19)` on day 3, the range 17–19 is mixed, so the first toggle
is an add (inserting only `[19,20)`); the second toggle is a remove, but it
resolves every hour against the pre-toggle snapshot, deletes the already
deleted row `[17,19)` twice (a silent no-op) and re-inserts its remainders
`[18,19)` and `[17,18)`, so hours 17 and 18 of the range are still covered
afterwards — the round trip does not leave the range uncovered. -/
theorem C1_roundtrip_counterexample :
    toggleAvail (buildRange (Cell.mk 3 17 0) (Cell.mk 3 19 0))
        (toggleAvail (buildRange (Cell.mk 3 17 0) (Cell.mk 3 19 0))
          (AvailState.mk [Avail.mk 0 3 17 19] 1)) =
      AvailState.mk [Avail.mk 2 3 18 19, Avail.mk 3 3 17 18] 4
    ∧ (isCellAvailable [Avail.mk 2 3 18 19, Avail.mk 3 3 17 18] 3 18).isSome = true
    ∧ (isCellAvailable [Avail.mk 2 3 18 19, Avail.mk 3 3 17 18] 3 17).isSome = true
    ∧ ((buildRange (Cell.mk 3 17 0) (Cell.mk 3 19 0)).all
        fun c => (isCellAvailable [Avail.mk 0 3 17 19] c.dow c.hour).isSome) = false
    ∧ ((buildRange (Cell.mk 3 17 0) (Cell.mk 3 19 0)).all
        fun c => (isCellAvailable [Avail.mk 0 3 17 19, Avail.mk 1 3 19 20] c.dow c.hour).isSome) = true := by
  decide

/-- Witness for C1: the amended round trip evaluated on the empty store,
day 3, hours 17–19. -/
theorem C1_roundtrip_amended_witness :
    (toggleAvail ((List.range' 17 3).map fun h => Cell.mk 3 h 0)
        (toggleAvail ((List.range' 17 3).map fun h => Cell.mk 3 h 0)
          (AvailState.mk [] 0))).rows = [] := by
  have h := C1_roundtrip_amended 3 0 17 3 (AvailState.mk [] 0)
    (by simp) (fun h h1 h2 => rfl)
  exact h.1

/-- Claim C2: the toggle classifies the action as remove exactly when every
selected hour is covered by some stored interval; otherwise it is an add,
which appends one fresh `[hour, hour+1)` row per uncovered selected cell and
deletes nothing (covered hours in the selection are untouched), and every
appended row is such a one-hour row of an uncovered selected cell. -/
theorem C2_classification_and_add_path (sel : List Cell) (st : AvailState)
    (delOk : Nat → Bool) :
    ((sel.all fun c => (isCellAvailable st.rows c.dow c.hour).isSome) = true ↔
      ∀ c ∈ sel, ∃ a ∈ st.rows,
        a.day_of_week = c.dow ∧ a.start_time ≤ c.hour ∧ c.hour + 1 ≤ a.end_time)
    ∧ ((sel.all fun c => (isCellAvailable st.rows c.dow c.hour).isSome) = false →
        handleToggleAvailability true sel delOk st =
          AvailState.mk (st.rows ++ addRows st.rows sel st.nextId)
            (st.nextId + (addRows st.rows sel st.nextId).length))
    ∧ (∀ r ∈ addRows st.rows sel st.nextId,
        ∃ c ∈ sel, isCellAvailable st.rows c.dow c.hour = none ∧
          r.day_of_week = c.dow ∧ r.start_time = c.hour ∧ r.end_time = c.hour + 1) := by
  refine ⟨?_, ?_, mem_addRows st.rows sel st.nextId⟩
  · rw [List.all_eq_true]
    apply forall_congr'
    intro c
    apply imp_congr_right
    intro _
    rw [isCellAvailable, List.find?_isSome]
    constructor
    · rintro ⟨a, ha, hp⟩
      rw [availPred, decide_eq_true_eq] at hp
      exact ⟨a, ha, hp⟩
    · rintro ⟨a, ha, hp⟩
      exact ⟨a, ha, by rw [availPred, decide_eq_true_eq]; exact hp⟩
  · intro hall
    have hne : sel.isEmpty = false := by
      cases sel with
      | nil => simp at hall
      | cons c cs => rfl
    unfold handleToggleAvailability
    simp only [Bool.not_true, Bool.false_or, hne, Bool.false_eq_true, if_false, hall]
    exact toggleGo_add st.rows sel delOk st

/-- Witness for C2: existing interval `[17,20)` on day 3 and selection
{17,18,19,20}: hour 20 is not covered, so the selection is mixed and the
action is an add which inserts only `[20,21)`, leaving `[17,20)` in place. -/
theorem C2_classification_and_add_path_witness :
    (([Cell.mk 3 17 0, Cell.mk 3 18 0, Cell.mk 3 19 0, Cell.mk 3 20 0].all
        fun c => (isCellAvailable [Avail.mk 0 3 17 20] c.dow c.hour).isSome) = false)
    ∧ handleToggleAvailability true
        [Cell.mk 3 17 0, Cell.mk 3 18 0, Cell.mk 3 19 0, Cell.mk 3 20 0]
        (fun _ => true) (AvailState.mk [Avail.mk 0 3 17 20] 1) =
      AvailState.mk [Avail.mk 0 3 17 20, Avail.mk 1 3 20 21] 2 := by
  constructor
  · decide
  · have h := (C2_classification_and_add_path
      [Cell.mk 3 17 0, Cell.mk 3 18 0, Cell.mk 3 19 0, Cell.mk 3 20 0]
      (AvailState.mk [Avail.mk 0 3 17 20] 1) (fun _ => true)).2.1 (by decide)
    rw [h]
    decide

/-- Claim C3: a remove-toggle whose selection is a single covered hour
deletes the covering interval `[s,e)` and re-inserts the remainder `[s,hour)`
exactly when `s < hour` and the remainder `[hour+1,e)` exactly when
`hour + 1 < e`; nothing else changes. -/
theorem C3_remove_single_hour_split (c : Cell) (st : AvailState) (m : Avail)
    (hm : isCellAvailable st.rows c.dow c.hour = some m) :
    toggleAvail [c] st =
      AvailState.mk
        ((st.rows.filter fun a => decide (a.id ≠ m.id)) ++
          ((if m.start_time < c.hour then [Avail.mk st.nextId c.dow m.start_time c.hour] else []) ++
            (if c.hour + 1 < m.end_time then
              [Avail.mk (if m.start_time < c.hour then st.nextId + 1 else st.nextId) c.dow
                (c.hour + 1) m.end_time]
            else [])))
        (if c.hour + 1 < m.end_time then
          (if m.start_time < c.hour then st.nextId + 1 else st.nextId) + 1
        else if m.start_time < c.hour then st.nextId + 1 else st.nextId) := by
  have h0 : toggleAvail [c] st =
      AvailState.mk (removeCellRows m c st.rows st.nextId).1
        (removeCellRows m c st.rows st.nextId).2 := by
    unfold toggleAvail handleToggleAvailability
    simp [toggleGo, hm]
  rw [h0]
  unfold removeCellRows
  split_ifs <;> simp

/-- Witness for C3: stored interval `[17,20)` on day 3, remove-toggle on
hour 18 alone yields exactly `[17,18)` and `[19,20)`, and hour 18 then
reports not free. -/
theorem C3_remove_single_hour_split_witness :
    toggleAvail [Cell.mk 3 18 0] (AvailState.mk [Avail.mk 0 3 17 20] 1) =
      AvailState.mk [Avail.mk 1 3 17 18, Avail.mk 2 3 19 20] 3
    ∧ isCellAvailable [Avail.mk 1 3 17 18, Avail.mk 2 3 19 20] 3 18 = none := by
  constructor
  · have h := C3_remove_single_hour_split (Cell.mk 3 18 0)
      (AvailState.mk [Avail.mk 0 3 17 20] 1) (Avail.mk 0 3 17 20) (by decide)
    rw [h]
    decide
  · decide

/-- Claim C8: in the remove path, a cell whose database delete fails
(`if (error) continue;`) contributes nothing — no remainder row is inserted
for that hour and the stored state is untouched by it — while the remaining
cells of the selection are processed as before. -/
theorem C8_failed_delete_skips_cell (snapshot : List Avail) (delOk : Nat → Bool)
    (c : Cell) (rest : List Cell) (st : AvailState) (m : Avail)
    (hm : isCellAvailable snapshot c.dow c.hour = some m)
    (hd : delOk 0 = false) :
    toggleGo snapshot true delOk (c :: rest) st =
      toggleGo snapshot true (fun i => delOk (i + 1)) rest st := by
  simp only [toggleGo, hm, hd, Bool.false_eq_true, if_false, if_true]

/-- Witness for C8: a failing delete on the covered hour 18 leaves the store
unchanged. -/
theorem C8_failed_delete_skips_cell_witness :
    toggleGo [Avail.mk 0 3 17 20] true (fun _ => false) [Cell.mk 3 18 0]
        (AvailState.mk [Avail.mk 0 3 17 20] 1) =
      AvailState.mk [Avail.mk 0 3 17 20] 1 := by
  have h := C8_failed_delete_skips_cell [Avail.mk 0 3 17 20] (fun _ => false)
    (Cell.mk 3 18 0) [] (AvailState.mk [Avail.mk 0 3 17 20] 1)
    (Avail.mk 0 3 17 20) (by decide) rfl
  exact h

/-- Claim C9: for drag endpoints in the same calendar column (cells of one
column share the column's day: the grid renders each cell with
`data-dow={col.dow}` and `data-col={i}`), `buildRange` returns the cells of
every hour from the smaller to the larger endpoint hour, all carrying the
start cell's day and column, and exchanging the endpoints gives the same
list; for endpoints in different columns it returns exactly the start
cell. -/
theorem C9_buildRange_spec (s e : Cell) :
    (s.colIdx = e.colIdx → s.dow = e.dow →
      ((buildRange s e).map Cell.hour =
          List.range' (Nat.min s.hour e.hour) (Nat.max s.hour e.hour + 1 - Nat.min s.hour e.hour)
        ∧ (∀ c ∈ buildRange s e, c.dow = s.dow ∧ c.colIdx = s.colIdx)
        ∧ buildRange s e = buildRange e s))
    ∧ (s.colIdx ≠ e.colIdx → buildRange s e = [s]) := by
  constructor
  · intro hcol hdow
    refine ⟨?_, ?_, ?_⟩
    · simp only [buildRange, hcol, ne_eq, not_true_eq_false, if_false, List.map_map]
      exact (List.map_congr_left fun a _ => rfl).trans (List.map_id _)
    · intro c hc
      simp only [buildRange, hcol, ne_eq, not_true_eq_false, if_false, List.mem_map] at hc
      obtain ⟨h, _, rfl⟩ := hc
      exact ⟨rfl, hcol.symm⟩
    · simp only [buildRange, hcol, hdow, ne_eq, not_true_eq_false, if_false]
      have hmin : Nat.min s.hour e.hour = Nat.min e.hour s.hour := Nat.min_comm s.hour e.hour
      have hmax : Nat.max s.hour e.hour = Nat.max e.hour s.hour := Nat.max_comm s.hour e.hour
      rw [hmin, hmax]
  · intro hcol
    simp [buildRange, hcol]

/-- Witness for C9: a same-column drag 17→19 equals the reversed drag and a
cross-column drag collapses to the start cell. -/
theorem C9_buildRange_spec_witness :
    buildRange (Cell.mk 3 17 2) (Cell.mk 3 19 2) = buildRange (Cell.mk 3 19 2) (Cell.mk 3 17 2)
    ∧ buildRange (Cell.mk 3 17 2) (Cell.mk 5 9 4) = [Cell.mk 3 17 2] := by
  exact ⟨((C9_buildRange_spec (Cell.mk 3 17 2) (Cell.mk 3 19 2)).1 rfl rfl).2.2,
    (C9_buildRange_spec (Cell.mk 3 17 2) (Cell.mk 5 9 4)).2 (by decide)⟩

/-- Claim C10: invoking the toggle with an empty selection or with no loaded
profile leaves the availability state exactly as it was: nothing is inserted
or deleted. -/
theorem C10_empty_selection_noop (hasProfile : Bool) (sel : List Cell)
    (delOk : Nat → Bool) (st : AvailState)
    (h : hasProfile = false ∨ sel = []) :
    handleToggleAvailability hasProfile sel delOk st = st := by
  rcases h with h | h
  · subst h
    rfl
  · subst h
    unfold handleToggleAvailability
    simp

/-- Witness for C10: both bail-out conditions evaluated on a concrete
store. -/
theorem C10_empty_selection_noop_witness :
    handleToggleAvailability false [Cell.mk 1 9 0] (fun _ => true)
        (AvailState.mk [Avail.mk 0 1 8 9] 1) =
      AvailState.mk [Avail.mk 0 1 8 9] 1
    ∧ handleToggleAvailability true [] (fun _ => true)
        (AvailState.mk [Avail.mk 0 1 8 9] 1) =
      AvailState.mk [Avail.mk 0 1 8 9] 1 := by
  exact ⟨C10_empty_selection_noop false [Cell.mk 1 9 0] (fun _ => true)
      (AvailState.mk [Avail.mk 0 1 8 9] 1) (Or.inl rfl),
    C10_empty_selection_noop true [] (fun _ => true)
      (AvailState.mk [Avail.mk 0 1 8 9] 1) (Or.inr rfl)⟩

/-- Claim C4 (amended): responding to a hangout proposal by a user who is
not that proposal's recipient changes nothing — the row policy filters the
update and no error is surfaced — while the recipient's respond sets the
status to the decision whatever the current status is: no InvalidState
check exists, so accepted and declined are not terminal.  The first
hypothesis only says the responder is not the recipient of the targeted
proposal id; other proposals of theirs may exist in the store. -/
theorem C4_respond_amended (db : List Proposal) (byUser requestId : Nat) (s : HStatus) :
    ((∀ p ∈ db, p.id = requestId → p.recipient_user_id ≠ byUser) →
      updateSuggestionStatus db byUser requestId s = db)
    ∧ (∀ p ∈ db, p.id = requestId → p.recipient_user_id = byUser →
        Proposal.mk p.id p.sender_user_id p.recipient_user_id p.interest_id
          p.proposed_datetime s ∈ updateSuggestionStatus db byUser requestId s) := by
  constructor
  · intro h
    unfold updateSuggestionStatus
    have he : ∀ p ∈ db,
        (if p.id = requestId ∧ p.recipient_user_id = byUser then
          { p with status := s } else p) = id p := by
      intro p hp
      rw [if_neg]
      · rfl
      · rintro ⟨h1, h2⟩
        exact h p hp h1 h2
    rw [List.map_congr_left he, List.map_id]
  · intro p hp h1 h2
    unfold updateSuggestionStatus
    refine List.mem_map.mpr ⟨p, hp, ?_⟩
    rw [if_pos ⟨h1, h2⟩]

/-- Claim C4 (counterexample): the recipient (user 2) declines an already
accepted proposal and its status changes to declined — a transition out of
the allegedly terminal accepted state, with no InvalidState failure — and
the sender (user 1), who the claim says must be rejected with Forbidden,
gets no failure either: their respond returns with the store unchanged, the
update having matched no row. -/
theorem C4_respond_terminal_counterexample :
    handleDeclineHangout [Proposal.mk 0 1 2 none 10 HStatus.accepted] 2 0 =
      [Proposal.mk 0 1 2 none 10 HStatus.declined]
    ∧ handleDeclineHangout [Proposal.mk 0 1 2 none 10 HStatus.accepted] 2 0 ≠
      [Proposal.mk 0 1 2 none 10 HStatus.accepted]
    ∧ handleDeclineHangout [Proposal.mk 0 1 2 none 10 HStatus.accepted] 1 0 =
      [Proposal.mk 0 1 2 none 10 HStatus.accepted] := by
  decide

/-- Witness for C4: a non-recipient's respond is a silent no-op, the
recipient's respond rewrites the status. -/
theorem C4_respond_amended_witness :
    updateSuggestionStatus [Proposal.mk 0 1 2 none 10 HStatus.pending] 9 0 HStatus.accepted =
      [Proposal.mk 0 1 2 none 10 HStatus.pending]
    ∧ Proposal.mk 0 1 2 none 10 HStatus.accepted ∈
        updateSuggestionStatus [Proposal.mk 0 1 2 none 10 HStatus.pending] 2 0
          HStatus.accepted := by
  constructor
  · exact (C4_respond_amended [Proposal.mk 0 1 2 none 10 HStatus.pending] 9 0
      HStatus.accepted).1 (by decide)
  · exact (C4_respond_amended [Proposal.mk 0 1 2 none 10 HStatus.pending] 2 0
      HStatus.accepted).2 (Proposal.mk 0 1 2 none 10 HStatus.pending) (by simp) rfl rfl

/-- Claim C5 (amended): `handleAddFriend` fails with the conflict error
exactly when a link with the same ordered `(requester, recipient)` pair
already exists, whatever its status; a link in the reverse direction does
not block the request (reciprocal requests collide silently), and on success
a pending requester→recipient link is appended. -/
theorem C5_requestFriend_amended (db : List FriendLink) (nid requester recipient : Nat) :
    (handleAddFriend db nid requester recipient = Except.error FriendError.conflict ↔
      ∃ l ∈ db, l.user_id = requester ∧ l.friend_user_id = recipient)
    ∧ ((∀ l ∈ db, ¬(l.user_id = requester ∧ l.friend_user_id = recipient)) →
        handleAddFriend db nid requester recipient =
          Except.ok (db ++ [FriendLink.mk nid requester recipient FStatus.pending])) := by
  constructor
  · constructor
    · intro h
      by_cases hc : (db.any fun l =>
          decide (l.user_id = requester ∧ l.friend_user_id = recipient)) = true
      · obtain ⟨l, hl, hp⟩ := List.any_eq_true.mp hc
        rw [decide_eq_true_eq] at hp
        exact ⟨l, hl, hp⟩
      · unfold handleAddFriend at h
        rw [if_neg hc] at h
        exact absurd h (by simp)
    · rintro ⟨l, hl, hp⟩
      have hc : (db.any fun l =>
          decide (l.user_id = requester ∧ l.friend_user_id = recipient)) = true :=
        List.any_eq_true.mpr ⟨l, hl, by rw [decide_eq_true_eq]; exact hp⟩
      unfold handleAddFriend
      rw [if_pos hc]
  · intro h
    have hc : (db.any fun l =>
        decide (l.user_id = requester ∧ l.friend_user_id = recipient)) = false := by
      rw [List.any_eq_false]
      intro l hl
      rw [decide_eq_true_eq]
      exact h l hl
    unfold handleAddFriend
    rw [if_neg (by rw [hc]; exact Bool.false_ne_true)]

/-- Claim C5 (counterexample): a pending link 2→1 already exists between the
pair, yet the request 1→2 succeeds and creates a second, reciprocal link —
the claimed either-direction Conflict does not happen. -/
theorem C5_requestFriend_counterexample :
    handleAddFriend [FriendLink.mk 0 2 1 FStatus.pending] 1 1 2 =
      Except.ok [FriendLink.mk 0 2 1 FStatus.pending, FriendLink.mk 1 1 2 FStatus.pending]
    ∧ handleAddFriend [FriendLink.mk 0 2 1 FStatus.pending] 1 1 2 ≠
      Except.error FriendError.conflict := by
  refine ⟨rfl, ?_⟩
  intro hcontra
  exact Except.noConfusion hcontra

/-- Witness for C5: a same-direction duplicate conflicts (whatever its
status), a fresh pair succeeds with a pending link. -/
theorem C5_requestFriend_amended_witness :
    handleAddFriend [FriendLink.mk 0 1 2 FStatus.accepted] 1 1 2 =
      Except.error FriendError.conflict
    ∧ handleAddFriend [] 0 1 2 = Except.ok [FriendLink.mk 0 1 2 FStatus.pending] := by
  constructor
  · exact (C5_requestFriend_amended [FriendLink.mk 0 1 2 FStatus.accepted] 1 1 2).1.mpr
      ⟨FriendLink.mk 0 1 2 FStatus.accepted, by simp, rfl, rfl⟩
  · exact (C5_requestFriend_amended [] 0 1 2).2 (by simp)

/-- Claim C6: the code evaluated at the failing input — user 1, owner of the
existing interest 5, proposes to user 2 with that interest and datetime 100
while the friends table is empty, so 2 is not an accepted friend of 1 — the
insert satisfies every schema constraint and creates the pending proposal
instead of failing with ValidationError; `handleScheduleHangout` never
consults the friendship data. -/
theorem C6_propose_without_friendship :
    acceptedFriendIds [] 1 = []
    ∧ handleScheduleHangout [Interest.mk 5 1] [] 0 1 (some 2) (some 100) (some 5) =
        Except.ok [Proposal.mk 0 1 2 (some 5) 100 HStatus.pending] := by
  exact ⟨rfl, rfl⟩

/-- Claim C7 (amended): `fetchUpcomingAccepted` is sorted ascending by
`proposed_datetime`, and — provided the user is not both sender and
recipient of any stored proposal — it is a permutation of exactly the
proposals where the user is sender or recipient, status is accepted and the
datetime is ≥ now.  A self-proposal is matched by both queries and returned
twice, refuting the unconditional claim. -/
theorem C7_listUpcomingAccepted_amended (db : List Proposal) (user now : Nat) :
    List.Sorted hangLe (fetchUpcomingAccepted db user now)
    ∧ ((∀ p ∈ db, ¬(p.sender_user_id = user ∧ p.recipient_user_id = user)) →
        (fetchUpcomingAccepted db user now).Perm
          (db.filter fun p =>
            decide ((p.sender_user_id = user ∨ p.recipient_user_id = user) ∧
              p.status = HStatus.accepted ∧ now ≤ p.proposed_datetime))) := by
  constructor
  · exact List.sorted_insertionSort hangLe _
  · intro h
    have h1 := List.perm_insertionSort hangLe
      ((db.filter fun p => decide (p.sender_user_id = user ∧ p.status = HStatus.accepted ∧
          now ≤ p.proposed_datetime)) ++
        (db.filter fun p => decide (p.recipient_user_id = user ∧ p.status = HStatus.accepted ∧
          now ≤ p.proposed_datetime)))
    have hdisj : ∀ p ∈ db,
        ¬((decide (p.sender_user_id = user ∧ p.status = HStatus.accepted ∧
            now ≤ p.proposed_datetime)) = true ∧
          (decide (p.recipient_user_id = user ∧ p.status = HStatus.accepted ∧
            now ≤ p.proposed_datetime)) = true) := by
      intro p hp
      simp only [decide_eq_true_eq]
      rintro ⟨⟨hs, _⟩, ⟨hr, _⟩⟩
      exact h p hp ⟨hs, hr⟩
    have h2 := filter_append_perm_or _ _ db hdisj
    have h3 : (db.filter fun p =>
        decide (p.sender_user_id = user ∧ p.status = HStatus.accepted ∧
          now ≤ p.proposed_datetime) ||
        decide (p.recipient_user_id = user ∧ p.status = HStatus.accepted ∧
          now ≤ p.proposed_datetime)) =
        db.filter fun p => decide ((p.sender_user_id = user ∨ p.recipient_user_id = user) ∧
          p.status = HStatus.accepted ∧ now ≤ p.proposed_datetime) :=
      List.filter_congr fun p _ => decide_or_and _ _ _
    rw [h3] at h2
    exact h1.trans h2

/-- Claim C7 (counterexample): a proposal whose sender and recipient are
both the querying user is fetched by the sender query and again by the
recipient query, so the returned sequence holds it twice while the set of
qualifying proposals holds it once. -/
theorem C7_self_proposal_counterexample :
    fetchUpcomingAccepted [Proposal.mk 0 1 1 none 5 HStatus.accepted] 1 0 =
      [Proposal.mk 0 1 1 none 5 HStatus.accepted, Proposal.mk 0 1 1 none 5 HStatus.accepted]
    ∧ ([Proposal.mk 0 1 1 none 5 HStatus.accepted].filter fun p =>
        decide ((p.sender_user_id = 1 ∨ p.recipient_user_id = 1) ∧
          p.status = HStatus.accepted ∧ 0 ≤ p.proposed_datetime)) =
      [Proposal.mk 0 1 1 none 5 HStatus.accepted] := by
  decide

/-- Witness for C7: two accepted future hangs, one sent and one received,
listed sorted and as a permutation of the combined filter. -/
theorem C7_listUpcomingAccepted_amended_witness :
    List.Sorted hangLe (fetchUpcomingAccepted
      [Proposal.mk 0 1 2 none 7 HStatus.accepted, Proposal.mk 1 3 1 none 4 HStatus.accepted] 1 0)
    ∧ (fetchUpcomingAccepted
        [Proposal.mk 0 1 2 none 7 HStatus.accepted, Proposal.mk 1 3 1 none 4 HStatus.accepted]
        1 0).Perm
      ([Proposal.mk 0 1 2 none 7 HStatus.accepted,
          Proposal.mk 1 3 1 none 4 HStatus.accepted].filter fun p =>
        decide ((p.sender_user_id = 1 ∨ p.recipient_user_id = 1) ∧
          p.status = HStatus.accepted ∧ 0 ≤ p.proposed_datetime)) := by
  have h := C7_listUpcomingAccepted_amended
    [Proposal.mk 0 1 2 none 7 HStatus.accepted, Proposal.mk 1 3 1 none 4 HStatus.accepted] 1 0
  exact ⟨h.1, h.2 (by decide)⟩

end HangoutScheduler
